import Mathlib

/-!
# Verification of the survey-question retrieval/assembly pipeline

Shallow embedding of the repository's core functions
(`Part4.py`, `Q5_v1.py`, `survey_database.py`) and proofs about them.

Python strings are modelled as Lean `String` (sequences of Unicode code
points), Python floats used as similarity scores are modelled as `ℚ`
(the claims under consideration are about comparison/selection logic,
not float rounding), and Python `dict` literals are modelled as ordered
association lists folded left-to-right (last write wins), matching
CPython semantics.
-/

/-! ## Character-class helpers (models of Python `re` classes and `str` methods) -/

/-- Model of the whitespace class used by Python's `str.split()`, `str.strip()`
and `re`'s `\s` on `str` patterns: the Unicode whitespace code points
recognised by CPython. -/
def pySpace (c : Char) : Bool :=
  (0x09 ≤ c.toNat && c.toNat ≤ 0x0d) || c.toNat == 0x1c || c.toNat == 0x1d
  || c.toNat == 0x1e || c.toNat == 0x1f || c.toNat == 0x20 || c.toNat == 0x85
  || c.toNat == 0xa0 || c.toNat == 0x1680
  || (0x2000 ≤ c.toNat && c.toNat ≤ 0x200a)
  || c.toNat == 0x2028 || c.toNat == 0x2029 || c.toNat == 0x202f
  || c.toNat == 0x205f || c.toNat == 0x3000

/-- `str.strip()`: drop whitespace from both ends (model on `List Char`). -/
def pyStrip (cs : List Char) : List Char :=
  ((cs.dropWhile pySpace).reverse.dropWhile pySpace).reverse

/-- The character class `[a-zA-Z一-龥]` of `clean_question_text`
(`Part4.py` line 52) and of `detect_lang` (`Part4.py` line 225). -/
def isValidStart (c : Char) : Bool :=
  (0x61 ≤ c.toNat && c.toNat ≤ 0x7a) || (0x41 ≤ c.toNat && c.toNat ≤ 0x5a)
  || (0x4e00 ≤ c.toNat && c.toNat ≤ 0x9fa5)

/-- Codepoint range `一-龥` used by `Part4.py`'s `detect_lang`. -/
def isCJKPart4 (c : Char) : Bool :=
  0x4e00 ≤ c.toNat && c.toNat ≤ 0x9fa5

/-- Codepoint range `"一" <= ch <= "鿿"` used by `Q5_v1.py`'s
`is_chinese`. -/
def isCJKFull (c : Char) : Bool :=
  0x4e00 ≤ c.toNat && c.toNat ≤ 0x9fff

/-- `needle.isPrefixOf hay`-based substring test: model of Python's
`needle in hay` on strings, on `List Char`. -/
def hasInfix (needle : List Char) : List Char → Bool
  | [] => needle.isEmpty
  | c :: t => needle.isPrefixOf (c :: t) || hasInfix needle t

/-- Python `needle in hay` on `String`. -/
def strContains (hay needle : String) : Bool :=
  hasInfix needle.data hay.data

/-- Python `str.lower()` (ASCII case folding, which covers every cased
character appearing in this code base), implemented on the character
list so that it reduces in the kernel. -/
def pyLower (s : String) : String :=
  String.mk (s.data.map Char.toLower)

/-! ## `Part4.py`: language detection (claim C4) -/

/-- `detect_lang` from `Part4.py` lines 224–227: returns `"zh"` iff the text
matches `[一-龥]`, else `"en"`. -/
def detect_lang (text : String) : String :=
  if text.data.any isCJKPart4 then "zh" else "en"

/-- `is_chinese` from `Q5_v1.py` lines 35–44: True iff some character lies in
`"一" .. "鿿"`. -/
def is_chinese (text : String) : Bool :=
  text.data.any isCJKFull

/-! ## `Part4.py`: difficulty scoring (claim C3) -/

/-- A row of the processed dataframe as consumed by `calculate_difficulty`
(`Part4.py` lines 105–145).  The Python code coerces each field with
`str(...)`, so every field is a string here. -/
structure QuestionRow where
  question_text : String
  question_type : String
  options_text : String
  detected_lang : String
deriving DecidableEq

/-- Number of words of Python `text.split()` (maximal runs of
non-whitespace characters). -/
def pyWordCount (cs : List Char) : Nat :=
  (cs.foldl
    (fun (st : Bool × Nat) c =>
      if pySpace c then (false, st.2)
      else if st.1 then st else (true, st.2 + 1))
    (false, 0)).2

/-- `calculate_difficulty` from `Part4.py` lines 105–145, translated
clause by clause (type factor, length factor, options factor, wording
factor, final clamp `max(1, min(5, score))`). -/
def calculate_difficulty (row : QuestionRow) : Nat :=
  let text := row.question_text
  let q_type := pyLower row.question_type
  let options := row.options_text
  let lang := row.detected_lang
  let score := 1
  -- A. TYPE FACTOR
  let score := if strContains q_type "open_ended" then score + 2
    else if strContains q_type "multiple_choice" || strContains q_type "single_choice"
    then score + 1 else score
  -- B. LENGTH FACTOR
  let score :=
    if lang = "en" then
      let word_count := pyWordCount text.data
      if word_count > 30 then score + 2
      else if word_count > 15 then score + 1 else score
    else
      let char_count := text.length
      if char_count > 50 then score + 2
      else if char_count > 20 then score + 1 else score
  -- C. OPTIONS FACTOR
  let score :=
    if options ≠ "" then
      let option_count := options.data.count '/' + 1
      if option_count > 6 then score + 1 else score
    else score
  -- D. WORDING FACTOR
  let text_lower := pyLower text
  let en_hard_words := ["describe", "explain", "comprehensive", "evaluate", "perspective", "why"]
  let zh_hard_words := ["描述", "解释", "详细", "评估", "看法", "为什么"]
  let score :=
    if lang = "en" then
      if en_hard_words.any (fun w => strContains text_lower w) then score + 1 else score
    else
      if zh_hard_words.any (fun w => strContains text_lower w) then score + 1 else score
  max 1 (min 5 score)

/-! ## `Part4.py`: the synonym table of `normalize_for_dedup` (claim C10) -/

/-- The entries of the `synonym_map` dict literal of `normalize_for_dedup`
(`Part4.py` lines 75–81), in source order.  The key `"hotel"` occurs
twice. -/
def synonym_map_entries : List (String × String) :=
  [("hotel", "accommodation"), ("hotels", "accommodation"),
   ("inn", "accommodation"), ("resort", "accommodation"),
   ("surveys", "survey"), ("travels", "travel"), ("service", "hospitality"),
   ("services", "hospitalitys"), ("hotel", "property"),
   ("trip", "travel"), ("journey", "travel")]

/-- CPython semantics of a dict literal: entries are inserted
left-to-right, a repeated key overwrites (last write wins). -/
def dictOfEntries (entries : List (String × String)) : String → Option String :=
  entries.foldl (fun m kv => fun x => if x = kv.1 then some kv.2 else m x)
    (fun _ => none)

/-- The effective `synonym_map` lookup. -/
def synonym_map (w : String) : Option String :=
  dictOfEntries synonym_map_entries w

/-- The per-token step `word = synonym_map.get(word, word)` of
`normalize_for_dedup` (`Part4.py` line 89). -/
def applySynonym (w : String) : String :=
  (synonym_map w).getD w

/-! ## `Part4.py`: `clean_question_text` (claim C5) -/

/-- Model of `re.sub(r'^\s*ask\s+', '', text, flags=re.IGNORECASE)`
(`Part4.py` line 48): if the text starts with optional whitespace, then
`ask` in any case, then at least one whitespace character, remove that
whole (greedy) match; otherwise leave the text unchanged. -/
def sub_ask (cs : List Char) : List Char :=
  match cs.dropWhile pySpace with
  | a :: s :: k :: tail =>
    if (a == 'a' || a == 'A') && (s == 's' || s == 'S') && (k == 'k' || k == 'K')
        && (match tail with | c :: _ => pySpace c | [] => false)
    then tail.dropWhile pySpace
    else cs
  | _ => cs

/-- The `\d+[\.:\s]\s*` part of the enumeration regex: one or more digits,
one separator out of `.`/`:`/whitespace, then greedy trailing whitespace.
Returns the remainder on a match. -/
def matchEnumDigits (l : List Char) : Option (List Char) :=
  let digits := l.takeWhile Char.isDigit
  let rest := l.dropWhile Char.isDigit
  if digits.isEmpty then none
  else match rest with
    | c :: t =>
      if c == '.' || c == ':' || pySpace c then some (t.dropWhile pySpace) else none
    | [] => none

/-- Model of `re.sub(r'^\s*(?:Q\s*)?\d+[\.:\s]\s*', '', text, flags=re.IGNORECASE)`
(`Part4.py` line 49).  When the first non-whitespace character is `Q`/`q`
the optional group is consumed; backtracking to the group-less alternative
then always fails because `\d+` cannot match at the `Q`. -/
def sub_enum (cs : List Char) : List Char :=
  let rest := cs.dropWhile pySpace
  match rest with
  | c :: t =>
    if c == 'Q' || c == 'q' then
      match matchEnumDigits (t.dropWhile pySpace) with
      | some r => r
      | none => cs
    else
      match matchEnumDigits rest with
      | some r => r
      | none => cs
  | [] => cs

/-- `clean_question_text` from `Part4.py` lines 44–56 (the code after the
unconditional `return text.strip()` on line 56 is unreachable): strip the
`ask` marker, strip the enumeration marker, slice from the first
`[a-zA-Z一-龥]` character if one exists, and `str.strip()` the result. -/
def clean_question_text (s : String) : String :=
  let t := sub_enum (sub_ask s.data)
  let u := t.dropWhile (fun c => !isValidStart c)
  if u.isEmpty then String.mk (pyStrip t) else String.mk (pyStrip u)

/-! ## `Part4.py`: deduplication by normalized key (claim C6) -/

/-- Worker for `drop_duplicates(..., keep='first')`: `seen` is the set of
keys already emitted. -/
def dedupeGo {α κ : Type} [DecidableEq κ] (key : α → κ) : List κ → List α → List α
  | _, [] => []
  | seen, x :: xs =>
    if key x ∈ seen then dedupeGo key seen xs
    else x :: dedupeGo key (key x :: seen) xs

/-- Model of `df.drop_duplicates(subset=['dedup_key'], keep='first')`
(`Part4.py` line 235): keep the first row for each distinct key, in
original order.  The key function is the (externally computed)
`normalize_for_dedup` column. -/
def drop_duplicates_first {α κ : Type} [DecidableEq κ] (key : α → κ) (l : List α) : List α :=
  dedupeGo key [] l

/-! ## `Part4.py`: the query/selection loop of `generate_survey` (claim C1) -/

/-- The result-selection loop of `generate_survey` (`Part4.py` lines
308–339) over the similarity-ranked candidates: walk the candidates
carrying `count` and the set `seen_text`; stop once `count` reaches
`target_count`; keep a candidate only when its score is `> 0.05` and its
question text was not already emitted.  Scores are modelled as `ℚ`. -/
def queryGo (target_count : Nat) : List (ℚ × String) → Nat → List String → List (ℚ × String)
  | [], _, _ => []
  | (score, q_text) :: rest, count, seen =>
    if target_count ≤ count then []
    else if 0.05 < score then
      if q_text ∈ seen then queryGo target_count rest count seen
      else (score, q_text) :: queryGo target_count rest (count + 1) (q_text :: seen)
    else queryGo target_count rest count seen

/-- The list of `(score, question_text)` results a query produces, from the
descending-ranked candidate list. -/
def query_results (target_count : Nat) (ranked : List (ℚ × String)) : List (ℚ × String) :=
  queryGo target_count ranked 0 []

/-! ## `Q5_v1.py`: ranking by score, descending and stable (claim C8) -/

/-- Stable insertion of a scored candidate into a descending-sorted list:
the new element goes before the first element whose score is `≤` its own.
Combined with `sortPairsDesc` below this is extensionally the stable
descending sort performed by `pairs.sort(key=lambda x: x[1], reverse=True)`
(`Q5_v1.py` lines 176–177); CPython's `list.sort` is documented stable and
`reverse=True` does not reorder equal elements. -/
def insertDesc {α : Type} (x : α × ℚ) : List (α × ℚ) → List (α × ℚ)
  | [] => [x]
  | y :: ys => if y.2 ≤ x.2 then x :: y :: ys else y :: insertDesc x ys

/-- Stable descending sort by score (second component). -/
def sortPairsDesc {α : Type} : List (α × ℚ) → List (α × ℚ)
  | [] => []
  | x :: xs => insertDesc x (sortPairsDesc xs)

/-! ## `survey_database.py`: the flat-file store and `add_question_to_questionnaire`
(claim C9) -/

/-- A stored question, with the fields `add_question_to_questionnaire`
touches.  `usage_count` is `Option Nat` because the Python code reads it
with `question.get("usage_count", 0)`. -/
structure StoredQuestion where
  id : Int
  question_text : String
  usage_count : Option Nat
deriving DecidableEq

/-- A stored questionnaire, with the fields the linking function touches. -/
structure Questionnaire where
  id : Int
  question_ids : List Int
deriving DecidableEq

/-- The in-memory JSON store (`self.data`), restricted to the two
collections the linking function reads and writes. -/
structure SurveyStore where
  questions : List StoredQuestion
  questionnaires : List Questionnaire
deriving DecidableEq

/-- `get_question_by_id` (`survey_database.py` lines 40–45): first question
whose `id` matches, else `None`. -/
def get_question_by_id (s : SurveyStore) (question_id : Int) : Option StoredQuestion :=
  s.questions.find? (fun q => q.id == question_id)

/-- `get_questionnaire_by_id` (`survey_database.py` lines 71–76). -/
def get_questionnaire_by_id (s : SurveyStore) (questionnaire_id : Int) : Option Questionnaire :=
  s.questionnaires.find? (fun q => q.id == questionnaire_id)

/-- In-place mutation of the record returned by a linear search: update the
first element satisfying the predicate, leave the rest unchanged. -/
def updateFirst {α : Type} (p : α → Bool) (f : α → α) : List α → List α
  | [] => []
  | x :: xs => if p x then f x :: xs else x :: updateFirst p f xs

/-- `add_question_to_questionnaire` (`survey_database.py` lines 100–114):
returns `False` when either record is missing; otherwise appends the
question id to the questionnaire (only if not already present, in which
case `usage_count` is bumped by `question.get("usage_count", 0) + 1`) and
returns `True`.  The persisted-to-disk side effect is the new store
value. -/
def add_question_to_questionnaire (s : SurveyStore) (questionnaire_id question_id : Int) :
    Bool × SurveyStore :=
  match get_questionnaire_by_id s questionnaire_id, get_question_by_id s question_id with
  | none, _ => (false, s)
  | some _, none => (false, s)
  | some questionnaire, some _ =>
    if question_id ∈ questionnaire.question_ids then (true, s)
    else
      (true,
        { questions := updateFirst (fun q => q.id == question_id)
            (fun q => { q with usage_count := some (q.usage_count.getD 0 + 1) })
            s.questions,
          questionnaires := updateFirst (fun q => q.id == questionnaire_id)
            (fun q => { q with question_ids := q.question_ids ++ [question_id] })
            s.questionnaires })

/-! ## `Part4.py`: index building and the insufficient-data condition (claim C7) -/

/-- `\w` (word character) for the corpus alphabet in play: ASCII
alphanumerics, underscore and CJK ideographs.  Used to model sklearn's
default `token_pattern` `(?u)\b\w\w+\b`. -/
def isWordChar (c : Char) : Bool :=
  (0x30 ≤ c.toNat && c.toNat ≤ 0x39) || (0x41 ≤ c.toNat && c.toNat ≤ 0x5a)
  || (0x61 ≤ c.toNat && c.toNat ≤ 0x7a) || c.toNat == 0x5f
  || (0x4e00 ≤ c.toNat && c.toNat ≤ 0x9fff)

/-- Maximal runs of word characters (`cur` is the reversed current run). -/
def tokenRunsGo (cur : List Char) : List Char → List (List Char)
  | [] => if cur.isEmpty then [] else [cur.reverse]
  | c :: t =>
    if isWordChar c then tokenRunsGo (c :: cur) t
    else if cur.isEmpty then tokenRunsGo [] t
    else cur.reverse :: tokenRunsGo [] t

/-- Model of the tokenization performed by
`TfidfVectorizer` with its defaults, as called in `generate_survey`
(`Part4.py` lines 272–279): lowercase, then keep maximal word-character
runs of length at least 2 (`token_pattern=r"(?u)\b\w\w+\b"`). -/
def sklearnTokens (doc : String) : List String :=
  ((tokenRunsGo [] doc.data).filter (fun r => 2 ≤ r.length)).map
    (fun r => String.mk (r.map Char.toLower))

/-- The fitted vocabulary: every token of every document that is not a stop
word.  `fit_transform` raises `ValueError` ("empty vocabulary") exactly
when this is empty — the condition the `except ValueError` branch of
`generate_survey` (`Part4.py` lines 278–282) turns into the
"Not enough text data." early return. -/
def buildVocabulary (stops : List String) (docs : List String) : List String :=
  ((docs.map sklearnTokens).flatten).filter (fun t => !(stops.contains t))

/-- The Chinese stop-word list passed to the vectorizer
(`Part4.py` line 275). -/
def zh_stops : List String :=
  ["的", "了", "是", "我", "你", "在", "和", "有", "去", "吗", "我们", "什么"]

/-- Index construction of `generate_survey` (`Part4.py` lines 271–282):
`fit_transform` inside `try/except ValueError`; an empty vocabulary
becomes the caught "Not enough text data." condition, anything else
builds the index. -/
def build_index (stops : List String) (docs : List String) : Except String Unit :=
  if (buildVocabulary stops docs).isEmpty then Except.error "Error: Not enough text data."
  else Except.ok ()

/-! ## `Q5_v1.py`: `generate_questionnaire` — filtering, selection, output
(claim C2) -/

/-- A question record of the bank as read by `generate_questionnaire`
(`Q5_v1.py`), with the fields the function touches. -/
structure BankQ where
  id : Int
  question_text : String
  category : String
  tags : List String
  difficulty : Option Int
  options : Option String
deriving DecidableEq

/-- Language filter (`Q5_v1.py` lines 134–135 and 244–245): applied only
when the requested language is `"en"` or `"zh"`, using `is_chinese` on the
question text. -/
def filterLanguage (language : Option String) (qs : List BankQ) : List BankQ :=
  match language with
  | some l =>
    if l == "en" || l == "zh" then
      qs.filter (fun q =>
        if l == "zh" then is_chinese q.question_text else !(is_chinese q.question_text))
    else qs
  | none => qs

/-- Category filter (`Q5_v1.py` lines 138–139); `categories` are already
lower-cased. -/
def filterCategories (categories : List String) (qs : List BankQ) : List BankQ :=
  if categories.isEmpty then qs
  else qs.filter (fun q => categories.contains (pyLower q.category))

/-- Difficulty-range filter (`Q5_v1.py` lines 142–144); `none` difficulty
models a missing or non-numeric field, excluded by the `isinstance`
check. -/
def filterDifficulty (dr : Option (Int × Int)) (qs : List BankQ) : List BankQ :=
  match dr with
  | some (lo, hi) => qs.filter (fun q =>
      match q.difficulty with
      | some d => decide (lo ≤ d) && decide (d ≤ hi)
      | none => false)
  | none => qs

/-- The non-English scoring heuristic (`Q5_v1.py` lines 159–169):
`+3` if the lowercased topic occurs in the lowercased text, `+2` if it
occurs in the joined lowercased tags; an empty topic scores 0. -/
def heuristicScores (topic : String) (qs : List BankQ) : List ℚ :=
  let qtoken := pyLower topic
  qs.map (fun q =>
    let text := pyLower q.question_text
    let tags := String.intercalate " " (q.tags.map pyLower)
    (if qtoken != "" && strContains text qtoken then (3 : ℚ) else 0)
    + (if qtoken != "" && strContains tags qtoken then (2 : ℚ) else 0))

/-- Min-max normalization (`Q5_v1.py` lines 170–173): divide by the maximum
when it is positive. -/
def normalizeScores (scores : List ℚ) : List ℚ :=
  match scores with
  | [] => []
  | h :: t =>
    let maxs := t.foldl max h
    if 0 < maxs then (h :: t).map (fun s => s / maxs) else h :: t

/-- Mutable selection state of the selection phase (`Q5_v1.py` lines
180–182): `selected_pairs`, the `used_ids` set (modelled as a list), and
the `assigned_cat` dict (modelled as an association list — each id is
inserted at most once). -/
structure SelState where
  selected_pairs : List (BankQ × ℚ)
  used_ids : List Int
  assigned_cat : List (Int × String)

/-- `cat_map.get(rc, [])` (`Q5_v1.py` lines 186–190): the dict of per-category
candidate lists, built in `pairs` order, is extensionally a filter. -/
def catCandidates (pairs : List (BankQ × ℚ)) (rc : String) : List (BankQ × ℚ) :=
  pairs.filter (fun p => pyLower p.1.category == rc)

/-- Category-coverage pass (`Q5_v1.py` lines 192–201): for each requested
category take its top candidate, if its id is unused. -/
def coveragePass (pairs : List (BankQ × ℚ)) (req_cats : List String) (st : SelState) :
    SelState :=
  req_cats.foldl (fun st rc =>
    match catCandidates pairs rc with
    | [] => st
    | chosen :: _ =>
      if chosen.1.id ∈ st.used_ids then st
      else { selected_pairs := st.selected_pairs ++ [chosen],
             used_ids := chosen.1.id :: st.used_ids,
             assigned_cat := st.assigned_cat ++ [(chosen.1.id, rc)] }) st

/-- The category-synonym table of the coverage-gap pass
(`Q5_v1.py` lines 207–211). -/
def gapSynonyms (rc : String) : List String :=
  if rc == "usage" then ["usage", "frequency", "behavior"]
  else if rc == "satisfaction" then ["satisfaction", "satisfied", "satisfy"]
  else if rc == "recommendation" then ["recommend", "recommendation", "nps"]
  else [rc]

/-- Token match of the gap pass (`Q5_v1.py` lines 216–218). -/
def tokenMatches (q : BankQ) (toks : List String) : Bool :=
  let qtext := pyLower q.question_text
  let qtags := String.intercalate " " (q.tags.map pyLower)
  toks.any (fun tok => strContains qtext tok || strContains qtags tok)

/-- Coverage-gap pass (`Q5_v1.py` lines 204–227): for each requested
category with no direct candidates, pin the first unused token-matching
question of the *full* bank with a fallback score of 0.5. -/
def gapPass (full_bank : List BankQ) (pairs : List (BankQ × ℚ)) (req_cats : List String)
    (st : SelState) : SelState :=
  let missing := req_cats.filter (fun rc => (catCandidates pairs rc).isEmpty)
  missing.foldl (fun st rc =>
    match full_bank.find?
        (fun q => tokenMatches q (gapSynonyms rc) && decide (q.id ∉ st.used_ids)) with
    | some q =>
      { selected_pairs := st.selected_pairs ++ [(q, 0.5)],
        used_ids := q.id :: st.used_ids,
        assigned_cat := st.assigned_cat ++ [(q.id, rc)] }
    | none => st) st

/-- Fill pass (`Q5_v1.py` lines 230–237): walk the ranked list, skipping
used ids, until `question_count` pairs are selected. -/
def fillPass (qcount : Nat) (pairs : List (BankQ × ℚ)) (st : SelState) : SelState :=
  pairs.foldl (fun st p =>
    if qcount ≤ st.selected_pairs.length then st
    else if p.1.id ∈ st.used_ids then st
    else { st with selected_pairs := st.selected_pairs ++ [p],
                   used_ids := p.1.id :: st.used_ids }) st

/-- Shortfall fallback (`Q5_v1.py` lines 242–250): append language-filtered
bank questions not yet in `selected` until the target is met.  Note this
extends only the local variable `selected`, not `selected_pairs`. -/
def fallbackFill (qcount : Nat) (fb : List BankQ) (selected : List BankQ) : List BankQ :=
  fb.foldl (fun sel q =>
    if qcount ≤ sel.length then sel
    else if q ∈ sel then sel
    else sel ++ [q]) selected

/-- Python `str.title()` restricted to ASCII letters (categories here are
ASCII): uppercase the first letter of each letter-run, lowercase the
rest. -/
def pyTitleGo : Bool → List Char → List Char
  | _, [] => []
  | prevAlpha, c :: t =>
    if c.isAlpha then
      (if prevAlpha then c.toLower else c.toUpper) :: pyTitleGo true t
    else c :: pyTitleGo false t

/-- `out_cat.title()` (`Q5_v1.py` line 262). -/
def pyTitle (s : String) : String :=
  String.mk (pyTitleGo false s.data)

/-- An entry of `ordered_questions` (`Q5_v1.py` lines 263–271). -/
structure OrderedItem where
  id : Int
  category : String
  score : ℚ
  difficulty : Option Int
  question_text : String
  options : Option String
deriving DecidableEq

/-- Output construction (`Q5_v1.py` lines 256–273): `ordered_questions` is
built from `selected_pairs` (not from the fallback-extended `selected`),
using the pinned category when one was assigned. -/
def buildOrdered (assigned : List (Int × String)) (selected_pairs : List (BankQ × ℚ)) :
    List OrderedItem :=
  selected_pairs.map (fun p =>
    let qid := p.1.id
    let out_cat := match assigned.lookup qid with
      | some rc => rc
      | none => p.1.category
    { id := qid, category := pyTitle out_cat, score := p.2,
      difficulty := p.1.difficulty, question_text := p.1.question_text,
      options := p.1.options })

/-- `generate_questionnaire` (`Q5_v1.py` lines 102–304) for a requested
language other than `"en"` (the `"en"` branch delegates scoring to the
external sklearn TF-IDF; every other phase is identical): filter, score,
rank (stable descending sort), coverage pass, gap pass, fill pass,
shortfall fallback, output construction.  Returns
(`ordered_questions`, the final `selected` list). -/
def generate_questionnaire_core (qcount : Nat) (categories_raw : List String)
    (difficulty_range : Option (Int × Int)) (language : Option String)
    (topic : String) (bank : List BankQ) : List OrderedItem × List BankQ :=
  let categories := categories_raw.map pyLower
  let qs := filterDifficulty difficulty_range
    (filterCategories categories (filterLanguage language bank))
  let scores := normalizeScores (heuristicScores topic qs)
  let pairs := sortPairsDesc (qs.zip scores)
  let st1 := coveragePass pairs categories { selected_pairs := [], used_ids := [], assigned_cat := [] }
  let st2 := gapPass bank pairs categories st1
  let st3 := fillPass qcount pairs st2
  let selected := fallbackFill qcount (filterLanguage language bank)
    (st3.selected_pairs.map Prod.fst)
  (buildOrdered st3.assigned_cat st3.selected_pairs, selected)

/-- Selection-phase invariant: selected ids are distinct and all recorded in
`used_ids`. -/
def SelInv (st : SelState) : Prop :=
  (st.selected_pairs.map (fun p => p.1.id)).Nodup
  ∧ ∀ i ∈ st.selected_pairs.map (fun p => p.1.id), i ∈ st.used_ids

/-! ## Theorems for claims C3, C4, C10 -/

/-- C3: `calculate_difficulty` is a total function (it is a Lean `def`,
defined on every record) and its result always lies in `[1, 5]`. -/
theorem calculate_difficulty_bounds (row : QuestionRow) :
    1 ≤ calculate_difficulty row ∧ calculate_difficulty row ≤ 5 := by
  unfold calculate_difficulty
  refine ⟨Nat.le_max_left _ _, ?_⟩
  exact max_le (by norm_num) (Nat.min_le_left _ _)

/-- C4, counterexample: the claim says language detection returns `"zh"` iff
the text contains a codepoint in U+4E00–U+9FFF.  The one-character text
U+9FA6 (a CJK Unified Ideograph above U+9FA5) lies in that range, yet
`detect_lang` returns `"en"`. -/
theorem detect_lang_range_counterexample :
    detect_lang (String.mk [Char.ofNat 0x9fa6]) = "en"
      ∧ (String.mk [Char.ofNat 0x9fa6]).data.any isCJKFull = true := by
  constructor
  · rfl
  · decide

/-- C4, amended: `detect_lang` (`Part4.py`) returns `"zh"` iff the text
contains a codepoint in U+4E00–U+9FA5 (else `"en"`), while `is_chinese`
(`Q5_v1.py`) is true iff the text contains a codepoint in the full
U+4E00–U+9FFF range. -/
theorem detect_lang_characterization (s : String) :
    (detect_lang s = "zh" ↔ ∃ c ∈ s.data, 0x4e00 ≤ c.toNat ∧ c.toNat ≤ 0x9fa5)
    ∧ (is_chinese s = true ↔ ∃ c ∈ s.data, 0x4e00 ≤ c.toNat ∧ c.toNat ≤ 0x9fff)
    ∧ (detect_lang s = "zh" ∨ detect_lang s = "en") := by
  refine ⟨?_, ?_, ?_⟩
  · unfold detect_lang
    constructor
    · intro hz
      by_cases h : s.data.any isCJKPart4
      · simpa [isCJKPart4, List.any_eq_true] using h
      · rw [if_neg h] at hz
        exact absurd hz (by decide)
    · intro hex
      have h : s.data.any isCJKPart4 = true := by
        simpa [isCJKPart4, List.any_eq_true] using hex
      rw [if_pos h]
  · unfold is_chinese
    simp [isCJKFull, List.any_eq_true]
  · unfold detect_lang
    by_cases h : s.data.any isCJKPart4 <;> simp [h]

/-- C10: in the effective synonym map (dict literal, last write wins) the
lemma `"hotel"` maps to `"property"` while `"inn"` and `"resort"` map to
`"accommodation"`; hence a token lemmatizing to `"hotel"` and one
lemmatizing to `"inn"` normalize to different canonical tokens. -/
theorem synonym_map_last_write_wins :
    synonym_map "hotel" = some "property"
    ∧ synonym_map "inn" = some "accommodation"
    ∧ synonym_map "resort" = some "accommodation"
    ∧ applySynonym "hotel" = "property"
    ∧ applySynonym "inn" = "accommodation"
    ∧ applySynonym "hotel" ≠ applySynonym "inn" := by
  refine ⟨rfl, rfl, rfl, rfl, rfl, by decide⟩

/-! ## Helper lemmas about `dropWhile` and `pyStrip` -/

theorem dropWhile_head_not {α : Type} (p : α → Bool) :
    ∀ (l : List α) (c : α) (r : List α), l.dropWhile p = c :: r → p c = false := by
  intro l
  induction l with
  | nil => intro c r h; simp [List.dropWhile] at h
  | cons a t ih =>
    intro c r h
    rw [List.dropWhile_cons] at h
    by_cases ha : p a
    · rw [if_pos ha] at h; exact ih c r h
    · rw [if_neg ha] at h
      cases h
      simpa using ha

theorem dropWhile_is_suffix {α : Type} (p : α → Bool) :
    ∀ (l : List α), l.dropWhile p <:+ l := by
  intro l
  induction l with
  | nil => simp
  | cons a t ih =>
    rw [List.dropWhile_cons]
    by_cases ha : p a
    · rw [if_pos ha]; exact ih.trans (List.suffix_cons a t)
    · rw [if_neg ha]

theorem valid_not_space (c : Char) (h : isValidStart c = true) : pySpace c = false := by
  have hn : (0x61 ≤ c.toNat ∧ c.toNat ≤ 0x7a) ∨ (0x41 ≤ c.toNat ∧ c.toNat ≤ 0x5a)
      ∨ (0x4e00 ≤ c.toNat ∧ c.toNat ≤ 0x9fa5) := by
    simpa [isValidStart, Bool.or_eq_true, Bool.and_eq_true, decide_eq_true_eq,
      or_assoc] using h
  rw [Bool.eq_false_iff]
  intro hsp
  have hs := hsp
  simp only [pySpace, Bool.or_eq_true, Bool.and_eq_true, decide_eq_true_eq,
    beq_iff_eq] at hs
  omega

theorem dropWhile_append_last {α : Type} (p : α → Bool) (c : α) (hc : p c = false) :
    ∀ (w : List α), (w ++ [c]).dropWhile p = w.dropWhile p ++ [c] := by
  intro w
  induction w with
  | nil => simp [List.dropWhile_cons, hc]
  | cons a t ih =>
    rw [List.cons_append, List.dropWhile_cons, List.dropWhile_cons]
    by_cases ha : p a
    · rw [if_pos ha, if_pos ha, ih]
    · rw [if_neg ha, if_neg ha, List.cons_append]

theorem pyStrip_cons_not_space (c : Char) (l : List Char) (h : pySpace c = false) :
    ∃ r, pyStrip (c :: l) = c :: r := by
  refine ⟨(l.reverse.dropWhile pySpace).reverse, ?_⟩
  unfold pyStrip
  rw [List.dropWhile_cons, if_neg (by simp [h]), List.reverse_cons,
    dropWhile_append_last pySpace c h, List.reverse_append]
  rfl

/-! ## Theorems for claim C5 -/

/-- C5, counterexample: the input `"?"` contains no alphabetic and no CJK
character, yet `clean_question_text` returns `"?"`, not the empty
string. -/
theorem clean_question_text_counterexample :
    clean_question_text "?" = "?"
    ∧ ("?" : String).data.all (fun c => !isValidStart c && !isCJKFull c) = true
    ∧ clean_question_text "?" ≠ "" := by
  refine ⟨by decide, by decide, by decide⟩

/-- C5, amended: after stripping the leading interrogative marker and the
leading enumeration marker (yielding `t`), `clean_question_text` returns
the whitespace-trimmed suffix of `t` starting at its first
`[a-zA-Z一-龥]` character when such a character exists (the result is
then non-empty and starts with that character); when no such character
exists it returns `t` trimmed of surrounding whitespace — which is empty
only if `t` is all whitespace, not in general. -/
theorem clean_question_text_amended (s : String) :
    ((sub_enum (sub_ask s.data)).any isValidStart = true →
      (clean_question_text s).data
        = pyStrip ((sub_enum (sub_ask s.data)).dropWhile (fun c => !isValidStart c))
      ∧ ∃ c r, (clean_question_text s).data = c :: r ∧ isValidStart c = true)
    ∧ ((sub_enum (sub_ask s.data)).any isValidStart = false →
      (clean_question_text s).data = pyStrip (sub_enum (sub_ask s.data))) := by
  cases hu : (sub_enum (sub_ask s.data)).dropWhile (fun c => !isValidStart c) with
  | nil =>
    have hall : ∀ x ∈ sub_enum (sub_ask s.data), isValidStart x = false := by
      intro x hx
      have := (List.dropWhile_eq_nil_iff.mp hu) x hx
      simpa using this
    constructor
    · intro hany
      rw [List.any_eq_true] at hany
      obtain ⟨x, hx, hvx⟩ := hany
      rw [hall x hx] at hvx; cases hvx
    · intro _
      simp only [clean_question_text, hu, List.isEmpty_nil, if_true]
  | cons c r =>
    have hc : isValidStart c = true := by
      have := dropWhile_head_not _ (sub_enum (sub_ask s.data)) c r hu
      simpa using this
    have hmem : c ∈ sub_enum (sub_ask s.data) :=
      (dropWhile_is_suffix _ _).subset (by rw [hu]; exact List.mem_cons_self c r)
    have hany : (sub_enum (sub_ask s.data)).any isValidStart = true :=
      List.any_eq_true.mpr ⟨c, hmem, hc⟩
    have hdata : (clean_question_text s).data = pyStrip (c :: r) := by
      simp [clean_question_text, hu]
    constructor
    · intro _
      refine ⟨by rw [hdata], ?_⟩
      obtain ⟨r2, hr2⟩ := pyStrip_cons_not_space c r (valid_not_space c hc)
      exact ⟨c, r2, by rw [hdata, hr2], hc⟩
    · intro hfalse
      rw [hany] at hfalse; cases hfalse

/-- Witness for `clean_question_text_amended` at the concrete input
`" Q1: hotel room?"`. -/
theorem clean_question_text_amended_witness :
    (clean_question_text " Q1: hotel room?").data
      = pyStrip ((sub_enum (sub_ask (" Q1: hotel room?" : String).data)).dropWhile
          (fun c => !isValidStart c))
    ∧ ∃ c r, (clean_question_text " Q1: hotel room?").data = c :: r
        ∧ isValidStart c = true :=
  (clean_question_text_amended " Q1: hotel room?").1 (by decide)

/-! ## Lemmas and theorem for claim C6 -/

theorem dedupeGo_sublist {α κ : Type} [DecidableEq κ] (key : α → κ) :
    ∀ (l : List α) (seen : List κ), List.Sublist (dedupeGo key seen l) l := by
  intro l
  induction l with
  | nil => intro seen; simp [dedupeGo]
  | cons x xs ih =>
    intro seen
    rw [dedupeGo]
    by_cases hx : key x ∈ seen
    · rw [if_pos hx]; exact (ih seen).cons x
    · rw [if_neg hx]; exact (ih (key x :: seen)).cons₂ x

theorem dedupeGo_filter {α κ : Type} [DecidableEq κ] (key : α → κ) (k : κ) :
    ∀ (l : List α) (seen : List κ),
      (dedupeGo key seen l).filter (fun x => key x == k)
        = if k ∈ seen then [] else (l.filter (fun x => key x == k)).take 1 := by
  intro l
  induction l with
  | nil =>
    intro seen
    by_cases h : k ∈ seen <;> simp [dedupeGo, h]
  | cons x xs ih =>
    intro seen
    rw [dedupeGo]
    by_cases hx : key x ∈ seen
    · rw [if_pos hx, ih, List.filter_cons]
      by_cases hk : key x = k
      · subst hk
        rw [if_pos hx, if_pos hx]
      · have : (key x == k) = false := by simp [hk]
        rw [this]
        simp only [Bool.false_eq_true, if_false]
    · rw [if_neg hx, List.filter_cons, List.filter_cons]
      by_cases hk : key x = k
      · subst hk
        have : (key x == key x) = true := by simp
        rw [this]
        simp only [if_true]
        rw [if_neg hx, ih]
        rw [if_pos (List.mem_cons_self _ _)]
        simp
      · have hbeq : (key x == k) = false := by simp [hk]
        rw [hbeq]
        simp only [Bool.false_eq_true, if_false]
        rw [ih]
        have hiff : (k ∈ key x :: seen) ↔ (k ∈ seen) := by
          rw [List.mem_cons]
          constructor
          · rintro (h | h)
            · exact absurd h.symm hk
            · exact h
          · exact fun h => Or.inr h
        by_cases hks : k ∈ seen
        · rw [if_pos (hiff.mpr hks), if_pos hks]
        · rw [if_neg (fun h => hks (hiff.mp h)), if_neg hks]

theorem dedupeGo_keys_fresh {α κ : Type} [DecidableEq κ] (key : α → κ) :
    ∀ (l : List α) (seen : List κ),
      ((dedupeGo key seen l).map key).Nodup
      ∧ ∀ x ∈ dedupeGo key seen l, key x ∉ seen := by
  intro l
  induction l with
  | nil => intro seen; simp [dedupeGo]
  | cons x xs ih =>
    intro seen
    rw [dedupeGo]
    by_cases hx : key x ∈ seen
    · rw [if_pos hx]; exact ih seen
    · rw [if_neg hx]
      obtain ⟨ihn, ihf⟩ := ih (key x :: seen)
      refine ⟨?_, ?_⟩
      · rw [List.map_cons, List.nodup_cons]
        refine ⟨?_, ihn⟩
        intro hmem
        rw [List.mem_map] at hmem
        obtain ⟨y, hy, hky⟩ := hmem
        exact (ihf y hy) (by rw [hky]; exact List.mem_cons_self _ _)
      · intro y hy
        rw [List.mem_cons] at hy
        cases hy with
        | inl h => subst h; exact hx
        | inr h => exact fun hmem => (ihf y h) (List.mem_cons_of_mem _ hmem)

theorem dedupeGo_id {α κ : Type} [DecidableEq κ] (key : α → κ) :
    ∀ (l : List α) (seen : List κ), (l.map key).Nodup → (∀ x ∈ l, key x ∉ seen) →
      dedupeGo key seen l = l := by
  intro l
  induction l with
  | nil => intro seen _ _; simp [dedupeGo]
  | cons x xs ih =>
    intro seen hnd hf
    rw [List.map_cons, List.nodup_cons] at hnd
    rw [dedupeGo, if_neg (hf x (List.mem_cons_self _ _))]
    congr 1
    refine ih (key x :: seen) hnd.2 ?_
    intro y hy
    rw [List.mem_cons]
    rintro (h | h)
    · exact hnd.1 (List.mem_map.mpr ⟨y, hy, h⟩)
    · exact hf y (List.mem_cons_of_mem _ hy) h

/-- C6: `drop_duplicates(..., keep='first')` keeps, for each distinct key,
exactly the first element of the pool with that key (the `take 1` of the
key's fiber), is order-preserving (the output is a sublist of the input),
and is idempotent. -/
theorem dedupe_first_order_idempotent {α κ : Type} [DecidableEq κ] (key : α → κ)
    (l : List α) :
    List.Sublist (drop_duplicates_first key l) l
    ∧ (∀ k : κ, (drop_duplicates_first key l).filter (fun x => key x == k)
        = (l.filter (fun x => key x == k)).take 1)
    ∧ drop_duplicates_first key (drop_duplicates_first key l)
        = drop_duplicates_first key l := by
  refine ⟨dedupeGo_sublist key l [], ?_, ?_⟩
  · intro k
    have := dedupeGo_filter key k l []
    simpa [drop_duplicates_first] using this
  · unfold drop_duplicates_first
    exact dedupeGo_id key _ [] (dedupeGo_keys_fresh key l []).1 (by simp)

/-- Witness for `dedupe_first_order_idempotent` at a concrete pool: rows are
`(key, payload)` pairs, keyed by first component. -/
theorem dedupe_first_order_idempotent_witness :
    List.Sublist (drop_duplicates_first Prod.fst [("k1", 1), ("k2", 2), ("k1", 3)])
        [("k1", 1), ("k2", 2), ("k1", 3)]
    ∧ (∀ k : String,
        (drop_duplicates_first Prod.fst [("k1", 1), ("k2", 2), ("k1", 3)]).filter
            (fun x => x.1 == k)
          = ([("k1", 1), ("k2", 2), ("k1", 3)].filter (fun x => x.1 == k)).take 1)
    ∧ drop_duplicates_first Prod.fst
        (drop_duplicates_first Prod.fst [("k1", 1), ("k2", 2), ("k1", 3)])
        = drop_duplicates_first Prod.fst [("k1", 1), ("k2", 2), ("k1", 3)] :=
  dedupe_first_order_idempotent Prod.fst [("k1", 1), ("k2", 2), ("k1", 3)]

/-! ## Lemmas and theorem for claim C1 -/

theorem queryGo_length (target_count : Nat) :
    ∀ (l : List (ℚ × String)) (count : Nat) (seen : List String),
      (queryGo target_count l count seen).length ≤ target_count - count := by
  intro l
  induction l with
  | nil => intro count seen; simp [queryGo]
  | cons p rest ih =>
    intro count seen
    obtain ⟨score, q_text⟩ := p
    rw [queryGo]
    by_cases hc : target_count ≤ count
    · rw [if_pos hc]; simp
    · rw [if_neg hc]
      by_cases hs : (0.05 : ℚ) < score
      · rw [if_pos hs]
        by_cases hseen : q_text ∈ seen
        · rw [if_pos hseen]; exact ih count seen
        · rw [if_neg hseen]
          simp only [List.length_cons]
          have h2 := ih (count + 1) (q_text :: seen)
          omega
      · rw [if_neg hs]; exact ih count seen

theorem queryGo_scores (target_count : Nat) :
    ∀ (l : List (ℚ × String)) (count : Nat) (seen : List String),
      ∀ p ∈ queryGo target_count l count seen, (0.05 : ℚ) < p.1 := by
  intro l
  induction l with
  | nil => intro count seen p hp; simp [queryGo] at hp
  | cons q rest ih =>
    intro count seen p hp
    obtain ⟨score, q_text⟩ := q
    rw [queryGo] at hp
    by_cases hc : target_count ≤ count
    · rw [if_pos hc] at hp; simp at hp
    · rw [if_neg hc] at hp
      by_cases hs : (0.05 : ℚ) < score
      · rw [if_pos hs] at hp
        by_cases hseen : q_text ∈ seen
        · rw [if_pos hseen] at hp; exact ih count seen p hp
        · rw [if_neg hseen] at hp
          rw [List.mem_cons] at hp
          cases hp with
          | inl h => subst h; exact hs
          | inr h => exact ih (count + 1) (q_text :: seen) p h
      · rw [if_neg hs] at hp; exact ih count seen p hp

theorem queryGo_texts_nodup (target_count : Nat) :
    ∀ (l : List (ℚ × String)) (count : Nat) (seen : List String),
      ((queryGo target_count l count seen).map Prod.snd).Nodup
      ∧ ∀ t ∈ (queryGo target_count l count seen).map Prod.snd, t ∉ seen := by
  intro l
  induction l with
  | nil => intro count seen; simp [queryGo]
  | cons q rest ih =>
    intro count seen
    obtain ⟨score, q_text⟩ := q
    rw [queryGo]
    by_cases hc : target_count ≤ count
    · rw [if_pos hc]; simp
    · rw [if_neg hc]
      by_cases hs : (0.05 : ℚ) < score
      · rw [if_pos hs]
        by_cases hseen : q_text ∈ seen
        · rw [if_pos hseen]; exact ih count seen
        · rw [if_neg hseen]
          obtain ⟨ihn, ihf⟩ := ih (count + 1) (q_text :: seen)
          refine ⟨?_, ?_⟩
          · rw [List.map_cons, List.nodup_cons]
            exact ⟨fun hmem => (ihf q_text hmem) (List.mem_cons_self _ _), ihn⟩
          · intro t ht
            rw [List.map_cons, List.mem_cons] at ht
            cases ht with
            | inl h => subst h; exact hseen
            | inr h => exact fun hmem => (ihf t h) (List.mem_cons_of_mem _ hmem)
      · rw [if_neg hs]; exact ih count seen

/-- C1: the ranked result list of `generate_survey`'s query loop contains at
most `target_count` entries, every entry has similarity score strictly
greater than `0.05`, and no two entries share the same question text. -/
theorem generate_survey_query_spec (target_count : Nat) (ranked : List (ℚ × String)) :
    (query_results target_count ranked).length ≤ target_count
    ∧ (∀ p ∈ query_results target_count ranked, (0.05 : ℚ) < p.1)
    ∧ ((query_results target_count ranked).map Prod.snd).Nodup := by
  refine ⟨?_, ?_, ?_⟩
  · have := queryGo_length target_count ranked 0 []
    simpa [query_results] using this
  · exact fun p hp => queryGo_scores target_count ranked 0 [] p hp
  · exact (queryGo_texts_nodup target_count ranked 0 []).1

/-- Witness for `generate_survey_query_spec` at a concrete ranked list
containing a duplicate text and a below-threshold score. -/
theorem generate_survey_query_spec_witness :
    (query_results 2 [(1/2, "a"), (1/2, "a"), (1/100, "b"), (2/5, "c")]).length ≤ 2
    ∧ (∀ p ∈ query_results 2 [(1/2, "a"), (1/2, "a"), (1/100, "b"), (2/5, "c")],
        (0.05 : ℚ) < p.1)
    ∧ ((query_results 2 [(1/2, "a"), (1/2, "a"), (1/100, "b"), (2/5, "c")]).map
        Prod.snd).Nodup :=
  generate_survey_query_spec 2 [(1/2, "a"), (1/2, "a"), (1/100, "b"), (2/5, "c")]

/-! ## Lemmas and theorem for claim C8 -/

theorem mem_insertDesc {α : Type} (x : α × ℚ) :
    ∀ (l : List (α × ℚ)) (a : α × ℚ), a ∈ insertDesc x l ↔ a = x ∨ a ∈ l := by
  intro l
  induction l with
  | nil => intro a; simp [insertDesc]
  | cons y ys ih =>
    intro a
    rw [insertDesc]
    by_cases h : y.2 ≤ x.2
    · rw [if_pos h]; simp [List.mem_cons]
    · rw [if_neg h]
      rw [List.mem_cons, List.mem_cons, ih a]
      tauto

theorem insertDesc_pairwise {α : Type} (x : α × ℚ) :
    ∀ (l : List (α × ℚ)), l.Pairwise (fun a b => b.2 ≤ a.2) →
      (insertDesc x l).Pairwise (fun a b => b.2 ≤ a.2) := by
  intro l
  induction l with
  | nil => intro _; simp [insertDesc]
  | cons y ys ih =>
    intro hp
    rw [List.pairwise_cons] at hp
    obtain ⟨hy, hys⟩ := hp
    rw [insertDesc]
    by_cases h : y.2 ≤ x.2
    · rw [if_pos h]
      rw [List.pairwise_cons]
      refine ⟨?_, List.pairwise_cons.mpr ⟨hy, hys⟩⟩
      intro b hb
      rw [List.mem_cons] at hb
      cases hb with
      | inl hb => subst hb; exact h
      | inr hb => exact le_trans (hy b hb) h
    · rw [if_neg h]
      rw [List.pairwise_cons]
      refine ⟨?_, ih hys⟩
      intro b hb
      rw [mem_insertDesc] at hb
      cases hb with
      | inl hb => subst hb; exact le_of_lt (lt_of_not_le h)
      | inr hb => exact hy b hb

theorem insertDesc_perm {α : Type} (x : α × ℚ) :
    ∀ (l : List (α × ℚ)), (insertDesc x l).Perm (x :: l) := by
  intro l
  induction l with
  | nil => simp [insertDesc]
  | cons y ys ih =>
    rw [insertDesc]
    by_cases h : y.2 ≤ x.2
    · rw [if_pos h]
    · rw [if_neg h]
      exact (ih.cons y).trans (List.Perm.swap x y ys)

theorem insertDesc_filter {α : Type} (x : α × ℚ) (s : ℚ) :
    ∀ (l : List (α × ℚ)),
      (insertDesc x l).filter (fun p => decide (p.2 = s))
        = if x.2 = s then x :: l.filter (fun p => decide (p.2 = s))
          else l.filter (fun p => decide (p.2 = s)) := by
  intro l
  induction l with
  | nil =>
    by_cases hx : x.2 = s
    · simp [insertDesc, hx]
    · simp [insertDesc, hx]
  | cons y ys ih =>
    rw [insertDesc]
    by_cases h : y.2 ≤ x.2
    · rw [if_pos h]
      by_cases hx : x.2 = s <;> simp [List.filter_cons, hx]
    · rw [if_neg h]
      by_cases hy : y.2 = s
      · have hx : ¬ x.2 = s := fun hxs => h (le_of_eq (hy.trans hxs.symm))
        simp [List.filter_cons, hy, hx, ih]
      · simp [List.filter_cons, hy, ih]

/-- C8: the ranked candidate list produced by
`pairs.sort(key=lambda x: x[1], reverse=True)` is sorted in descending
score order, is a permutation of the pool, and for every score value the
candidates carrying that score appear exactly in their original pool
order (stability). -/
theorem rank_pairs_sorted_stable {α : Type} (pairs : List (α × ℚ)) :
    (sortPairsDesc pairs).Pairwise (fun a b => b.2 ≤ a.2)
    ∧ (sortPairsDesc pairs).Perm pairs
    ∧ ∀ s : ℚ, (sortPairsDesc pairs).filter (fun p => decide (p.2 = s))
        = pairs.filter (fun p => decide (p.2 = s)) := by
  induction pairs with
  | nil => refine ⟨by simp [sortPairsDesc], by simp [sortPairsDesc], by simp [sortPairsDesc]⟩
  | cons x xs ih =>
    obtain ⟨ihp, ihperm, ihf⟩ := ih
    rw [sortPairsDesc]
    refine ⟨insertDesc_pairwise x _ ihp, (insertDesc_perm x _).trans (ihperm.cons x), ?_⟩
    intro s
    rw [insertDesc_filter, List.filter_cons]
    by_cases hx : x.2 = s
    · rw [if_pos hx, if_pos (by simpa using hx), ihf]
    · rw [if_neg hx, if_neg (by simpa using hx), ihf]

/-! ## Lemmas and theorems for claim C9 -/

theorem find_updateFirst {α : Type} (p : α → Bool) (f : α → α)
    (hpf : ∀ x, p x = true → p (f x) = true) :
    ∀ (l : List α) (x : α), l.find? p = some x →
      (updateFirst p f l).find? p = some (f x) := by
  intro l
  induction l with
  | nil => intro x h; simp at h
  | cons a t ih =>
    intro x h
    by_cases hp : p a
    · rw [List.find?_cons_of_pos _ hp] at h
      cases h
      rw [updateFirst, if_pos hp]
      exact List.find?_cons_of_pos _ (hpf a hp)
    · rw [List.find?_cons_of_neg _ hp] at h
      rw [updateFirst, if_neg hp, List.find?_cons_of_neg _ hp]
      exact ih x h

/-- C9, counterexample: with questionnaire 1 already containing question 2,
`add_question_to_questionnaire` returns `True` but leaves the store — and
in particular question 2's `usage_count` — unchanged, so not every
`True`-returning call increments `usage_count`. -/
theorem link_question_counterexample :
    (add_question_to_questionnaire
        { questions := [{ id := 2, question_text := "q", usage_count := some 5 }],
          questionnaires := [{ id := 1, question_ids := [2] }] } 1 2).1 = true
    ∧ (add_question_to_questionnaire
        { questions := [{ id := 2, question_text := "q", usage_count := some 5 }],
          questionnaires := [{ id := 1, question_ids := [2] }] } 1 2).2
      = { questions := [{ id := 2, question_text := "q", usage_count := some 5 }],
          questionnaires := [{ id := 1, question_ids := [2] }] } := by
  refine ⟨by decide, by decide⟩

/-- C9, amended: `add_question_to_questionnaire` returns `True` exactly when
both the questionnaire and the question exist; a `True` call increments the
question's `usage_count` by 1 (from a missing-count default of 0) exactly
when the question id was not already linked, and leaves the store unchanged
when it was. -/
theorem link_question_characterization (s : SurveyStore) (qnid qid : Int) :
    ((add_question_to_questionnaire s qnid qid).1 = true ↔
      (get_questionnaire_by_id s qnid).isSome ∧ (get_question_by_id s qid).isSome)
    ∧ (∀ qn, get_questionnaire_by_id s qnid = some qn → qid ∈ qn.question_ids →
        (add_question_to_questionnaire s qnid qid).2 = s)
    ∧ (∀ qn q, get_questionnaire_by_id s qnid = some qn →
        get_question_by_id s qid = some q → qid ∉ qn.question_ids →
        get_question_by_id (add_question_to_questionnaire s qnid qid).2 qid
          = some { q with usage_count := some (q.usage_count.getD 0 + 1) }) := by
  refine ⟨?_, ?_, ?_⟩
  · cases h1 : get_questionnaire_by_id s qnid with
    | none => simp [add_question_to_questionnaire, h1]
    | some qn =>
      cases h2 : get_question_by_id s qid with
      | none => simp [add_question_to_questionnaire, h1, h2]
      | some q =>
        by_cases hmem : qid ∈ qn.question_ids <;>
          simp [add_question_to_questionnaire, h1, h2, hmem]
  · intro qn h1 hmem
    cases h2 : get_question_by_id s qid with
    | none => simp [add_question_to_questionnaire, h1, h2]
    | some q => simp [add_question_to_questionnaire, h1, h2, hmem]
  · intro qn q h1 h2 hmem
    have hstore : (add_question_to_questionnaire s qnid qid).2
        = { questions := updateFirst (fun q => q.id == qid)
              (fun q => { q with usage_count := some (q.usage_count.getD 0 + 1) })
              s.questions,
            questionnaires := updateFirst (fun q => q.id == qnid)
              (fun q => { q with question_ids := q.question_ids ++ [qid] })
              s.questionnaires } := by
      simp [add_question_to_questionnaire, h1, h2, hmem]
    rw [hstore]
    show List.find? (fun q => q.id == qid)
        (updateFirst (fun q => q.id == qid)
          (fun q => { q with usage_count := some (q.usage_count.getD 0 + 1) })
          s.questions)
      = some { q with usage_count := some (q.usage_count.getD 0 + 1) }
    have h2f : List.find? (fun q => q.id == qid) s.questions = some q := h2
    exact find_updateFirst (fun q => q.id == qid)
      (fun q => { q with usage_count := some (q.usage_count.getD 0 + 1) })
      (fun x hx => hx) s.questions q h2f

/-- Witness for `link_question_characterization`: linking a not-yet-linked
question bumps its `usage_count` from 5 to 6. -/
theorem link_question_characterization_witness :
    get_question_by_id (add_question_to_questionnaire
        { questions := [{ id := 2, question_text := "q", usage_count := some 5 }],
          questionnaires := [{ id := 1, question_ids := [] }] } 1 2).2 2
      = some { id := 2, question_text := "q", usage_count := some 6 } :=
  (link_question_characterization
      { questions := [{ id := 2, question_text := "q", usage_count := some 5 }],
        questionnaires := [{ id := 1, question_ids := [] }] } 1 2).2.2
    { id := 1, question_ids := [] }
    { id := 2, question_text := "q", usage_count := some 5 }
    rfl rfl (by decide)

/-! ## Theorems for claim C7 -/

/-- C7, counterexample: a corpus with a single non-empty document does not
trigger the insufficient-data condition (the vocabulary is non-empty and
`fit_transform` succeeds), while a corpus of two non-empty documents made
only of stop words does trigger it — so "fewer than two non-empty
documents" is neither necessary nor sufficient for the condition. -/
theorem build_index_counterexample :
    build_index zh_stops ["酒店房间"] = Except.ok ()
    ∧ ((["酒店房间"] : List String).filter (fun d => d != "")).length < 2
    ∧ build_index zh_stops ["我们", "什么"] = Except.error "Error: Not enough text data."
    ∧ ((["我们", "什么"] : List String).filter (fun d => d != "")).length = 2 := by
  refine ⟨rfl, by decide, rfl, by decide⟩

/-- C7, amended: `build_index` signals the caught "Not enough text data."
condition (never an unhandled crash — the function is total with an
explicit error value) exactly when every token of every document is a
stop word; in particular the empty corpus always triggers it. -/
theorem build_index_characterization (stops docs : List String) :
    (build_index stops docs = Except.error "Error: Not enough text data."
      ↔ ∀ d ∈ docs, ∀ t ∈ sklearnTokens d, t ∈ stops)
    ∧ (docs = [] → build_index stops docs = Except.error "Error: Not enough text data.") := by
  constructor
  · unfold build_index
    by_cases h : (buildVocabulary stops docs).isEmpty
    · rw [if_pos h]
      rw [List.isEmpty_iff] at h
      constructor
      · intro _ d hd t ht
        unfold buildVocabulary at h
        rw [List.filter_eq_nil_iff] at h
        have hmem : t ∈ (docs.map sklearnTokens).flatten :=
          List.mem_flatten.mpr ⟨sklearnTokens d, List.mem_map_of_mem _ hd, ht⟩
        have := h t hmem
        simpa using this
      · intro _; rfl
    · rw [if_neg h]
      constructor
      · intro hcontra; cases hcontra
      · intro hall
        exfalso
        apply h
        unfold buildVocabulary
        rw [List.isEmpty_iff, List.filter_eq_nil_iff]
        intro t hmem
        obtain ⟨l, hl, htl⟩ := List.mem_flatten.mp hmem
        obtain ⟨d, hd, rfl⟩ := List.mem_map.mp hl
        simpa using hall d hd t htl
  · intro hnil
    subst hnil
    rfl

/-- Witness for `build_index_characterization`: the empty corpus yields the
insufficient-data condition, not a crash. -/
theorem build_index_characterization_witness :
    build_index zh_stops [] = Except.error "Error: Not enough text data." :=
  (build_index_characterization zh_stops []).2 rfl

/-! ## Lemmas and theorem for claim C2 -/

theorem foldl_inv {σ α : Type} (Inv : σ → Prop) (f : σ → α → σ)
    (hf : ∀ s a, Inv s → Inv (f s a)) :
    ∀ (l : List α) (s : σ), Inv s → Inv (l.foldl f s) := by
  intro l
  induction l with
  | nil => intro s h; simpa using h
  | cons a t ih =>
    intro s h
    rw [List.foldl_cons]
    exact ih _ (hf s a h)

theorem SelInv_push (st : SelState) (p : BankQ × ℚ) (ac : List (Int × String))
    (h : SelInv st) (hid : p.1.id ∉ st.used_ids) :
    SelInv { selected_pairs := st.selected_pairs ++ [p],
             used_ids := p.1.id :: st.used_ids, assigned_cat := ac } := by
  obtain ⟨hn, hsub⟩ := h
  constructor
  · show ((st.selected_pairs ++ [p]).map (fun p => p.1.id)).Nodup
    rw [List.map_append]
    rw [List.nodup_append]
    refine ⟨hn, by simp, ?_⟩
    intro i hi hi2
    simp only [List.map_cons, List.map_nil, List.mem_singleton] at hi2
    subst hi2
    exact hid (hsub _ hi)
  · show ∀ i ∈ (st.selected_pairs ++ [p]).map (fun p => p.1.id), i ∈ p.1.id :: st.used_ids
    intro i hi
    rw [List.map_append, List.mem_append] at hi
    cases hi with
    | inl h2 => exact List.mem_cons_of_mem _ (hsub i h2)
    | inr h2 =>
      simp only [List.map_cons, List.map_nil, List.mem_singleton] at h2
      subst h2
      exact List.mem_cons_self _ _

theorem coveragePass_inv (pairs : List (BankQ × ℚ)) (req_cats : List String)
    (st : SelState) (h : SelInv st) : SelInv (coveragePass pairs req_cats st) := by
  unfold coveragePass
  refine foldl_inv SelInv _ ?_ req_cats st h
  intro s rc hs
  cases hcand : catCandidates pairs rc with
  | nil => simpa [hcand] using hs
  | cons chosen rest =>
    simp only [hcand]
    by_cases hmem : chosen.1.id ∈ s.used_ids
    · simpa [hmem] using hs
    · rw [if_neg hmem]
      exact SelInv_push s chosen _ hs hmem

theorem gapPass_inv (full_bank : List BankQ) (pairs : List (BankQ × ℚ))
    (req_cats : List String) (st : SelState) (h : SelInv st) :
    SelInv (gapPass full_bank pairs req_cats st) := by
  unfold gapPass
  refine foldl_inv SelInv _ ?_ _ st h
  intro s rc hs
  cases hfind : full_bank.find?
      (fun q => tokenMatches q (gapSynonyms rc) && decide (q.id ∉ s.used_ids)) with
  | none => simpa [hfind] using hs
  | some q =>
    simp only [hfind]
    have hpred := List.find?_some hfind
    rw [Bool.and_eq_true, decide_eq_true_eq] at hpred
    exact SelInv_push s (q, 0.5) _ hs hpred.2

theorem fillPass_inv (qcount : Nat) (pairs : List (BankQ × ℚ)) (st : SelState)
    (h : SelInv st) : SelInv (fillPass qcount pairs st) := by
  unfold fillPass
  refine foldl_inv SelInv _ ?_ pairs st h
  intro s p hs
  by_cases hfull : qcount ≤ s.selected_pairs.length
  · simpa [hfull] using hs
  · rw [if_neg hfull]
    by_cases hmem : p.1.id ∈ s.used_ids
    · simpa [hmem] using hs
    · rw [if_neg hmem]
      exact SelInv_push s p _ hs hmem

theorem buildOrdered_ids (ac : List (Int × String)) :
    ∀ l : List (BankQ × ℚ), (buildOrdered ac l).map OrderedItem.id
      = l.map (fun p => p.1.id) := by
  intro l
  induction l with
  | nil => rfl
  | cons p t ih =>
    simp only [buildOrdered, List.map_cons] at ih ⊢
    exact congrArg (List.cons p.1.id) ih

/-- C2: the first (universally quantified) conjunct shows the true half of
the claim — `ordered_questions` never contains duplicate question ids.
The remaining conjuncts evaluate the code at the failing input
(requirement: `question_count = 1`, `categories = ["nosuch"]`, no language
or difficulty filter, empty topic; bank: one question of category
`"usage"`): the selection phase selects nothing, the shortfall fallback
appends the one reachable question to the dead local `selected`
(length 1 = `min(question_count, pool after relaxed fallback)`), yet the
returned `ordered_questions` is empty because the output is built from
`selected_pairs` only. -/
theorem generate_questionnaire_fallback_dropped :
    (∀ (qcount : Nat) (cats : List String) (dr : Option (Int × Int))
        (lang : Option String) (topic : String) (bank : List BankQ),
      ((generate_questionnaire_core qcount cats dr lang topic bank).1.map
        OrderedItem.id).Nodup)
    ∧ (generate_questionnaire_core 1 ["nosuch"] none none ""
        [{ id := 1, question_text := "How often do you travel", category := "usage",
           tags := [], difficulty := some 1, options := none }]).1.length = 0
    ∧ (generate_questionnaire_core 1 ["nosuch"] none none ""
        [{ id := 1, question_text := "How often do you travel", category := "usage",
           tags := [], difficulty := some 1, options := none }]).2.length = 1
    ∧ min 1 (filterLanguage none
        [{ id := 1, question_text := "How often do you travel", category := "usage",
           tags := [], difficulty := some 1, options := none }]).length = 1 := by
  refine ⟨?_, ?_, ?_, ?_⟩
  · intro qcount cats dr lang topic bank
    have hinv : SelInv (fillPass qcount
        (sortPairsDesc ((filterDifficulty dr (filterCategories (cats.map pyLower)
          (filterLanguage lang bank))).zip
            (normalizeScores (heuristicScores topic (filterDifficulty dr
              (filterCategories (cats.map pyLower) (filterLanguage lang bank)))))))
        (gapPass bank
          (sortPairsDesc ((filterDifficulty dr (filterCategories (cats.map pyLower)
            (filterLanguage lang bank))).zip
              (normalizeScores (heuristicScores topic (filterDifficulty dr
                (filterCategories (cats.map pyLower) (filterLanguage lang bank)))))))
          (cats.map pyLower)
          (coveragePass
            (sortPairsDesc ((filterDifficulty dr (filterCategories (cats.map pyLower)
              (filterLanguage lang bank))).zip
                (normalizeScores (heuristicScores topic (filterDifficulty dr
                  (filterCategories (cats.map pyLower) (filterLanguage lang bank)))))))
            (cats.map pyLower)
            { selected_pairs := [], used_ids := [], assigned_cat := [] }))) :=
      fillPass_inv _ _ _ (gapPass_inv _ _ _ _ (coveragePass_inv _ _ _
        ⟨by simp, by simp⟩))
    show ((buildOrdered _ _).map OrderedItem.id).Nodup
    rw [buildOrdered_ids]
    exact hinv.1
  · rfl
  · rfl
  · rfl
